import Mathlib

/-!
Verification development for `id3_manipulator.py`, a script that copies audio
files from a source tree into a destination tree organized as
`artist/album/title.ext`, deduplicating byte-identical files and
disambiguating distinct files that collide on name.

The Python script is shallowly embedded:

* `make_friendly_path` is translated directly from the list comprehension in
  the source (replace each character in a fixed reserved set by an
  underscore).
* The filesystem is explicit state: `FS` holds an association list of files
  (path components to byte content, abstracted as a `Nat` content identity,
  which is all `filecmp.cmp` observes) and a list of directories.  Paths are
  lists of path components, which is faithful because every component placed
  by the script has been sanitized and so contains no separator.
* Parsed audio metadata is modelled by `FlacTags` (mutagen FLAC: each vorbis
  key maps to a list of values; a key may be absent) and `Id3Tags` (mutagen
  ID3: the string rendering of a frame, or absence of the frame).  A `none`
  parse models the constructor raising, which the script catches and turns
  into the failure return 0.
* The unbounded `while os.path.exists(...)` probe loop is given fuel
  `fs.files.length + 1`; a pigeonhole argument (the candidate names
  `title`, `title_1`, `title_2`, ... are pairwise distinct strings) shows
  this fuel is never the reason the loop result is `none`.  A `none` result
  of `move_audio_file` models an uncaught exception (`filecmp.cmp` applied
  to a directory), which the script does not handle.
* `organize_by_tag` is the fold of the per-file dispatch over the list of
  enumerated source files.  The `attempted` field of `WalkState` is
  observational instrumentation only: it records each invocation of
  `move_audio_file` so that "extraction is (never) invoked" is expressible;
  no other definition reads it.
-/

/-! ### Decimal rendering of naturals, modelling Python `str(int)` -/

/-- Little-endian decimal digits of `n`, with explicit fuel (first argument).
Models the digit sequence of Python `str` on a nonnegative int. -/
def decDigitsAux : Nat → Nat → List Nat
  | 0, _ => []
  | fuel + 1, n => if n = 0 then [] else (n % 10) :: decDigitsAux fuel (n / 10)

/-- Little-endian decimal digits of `n` (empty for `0`). -/
def decDigits (n : Nat) : List Nat := decDigitsAux n n

/-- Value of a little-endian decimal digit list. -/
def ofDec : List Nat → Nat
  | [] => 0
  | d :: ds => d + 10 * ofDec ds

/-- Decimal rendering of a natural number, as Python `str` produces for a
nonnegative int. -/
def natRepr (n : Nat) : String :=
  if n = 0 then "0" else ⟨((decDigits n).reverse).map Nat.digitChar⟩

theorem decDigitsAux_fuel : ∀ fuel n, n ≤ fuel → ofDec (decDigitsAux fuel n) = n := by
  intro fuel
  induction fuel with
  | zero => intro n hn; interval_cases n; simp [decDigitsAux, ofDec]
  | succ f ih =>
    intro n hn
    by_cases h0 : n = 0
    · simp [decDigitsAux, h0, ofDec]
    · have hdiv : n / 10 ≤ f := by
        have : n / 10 < n := Nat.div_lt_self (Nat.pos_of_ne_zero h0) (by omega)
        omega
      simp only [decDigitsAux, h0, if_false, ofDec, ih _ hdiv]
      omega

theorem ofDec_decDigits (n : Nat) : ofDec (decDigits n) = n :=
  decDigitsAux_fuel n n le_rfl

theorem decDigits_lt_ten : ∀ fuel n, ∀ d ∈ decDigitsAux fuel n, d < 10 := by
  intro fuel
  induction fuel with
  | zero => intro n d hd; simp [decDigitsAux] at hd
  | succ f ih =>
    intro n d hd
    by_cases h0 : n = 0
    · simp [decDigitsAux, h0] at hd
    · simp only [decDigitsAux, h0, if_false, List.mem_cons] at hd
      rcases hd with h | h
      · exact h ▸ Nat.mod_lt n (by omega)
      · exact ih _ _ h

theorem digitChar_inj_lt : ∀ d, d < 10 → ∀ e, e < 10 →
    Nat.digitChar d = Nat.digitChar e → d = e := by decide

theorem map_digitChar_inj : ∀ xs ys : List Nat, (∀ d ∈ xs, d < 10) → (∀ d ∈ ys, d < 10) →
    xs.map Nat.digitChar = ys.map Nat.digitChar → xs = ys := by
  intro xs
  induction xs with
  | nil => intro ys _ _ h; cases ys <;> simp_all
  | cons x xs ih =>
    intro ys hx hy h
    cases ys with
    | nil => simp at h
    | cons y ys =>
      simp only [List.map_cons, List.cons.injEq] at h
      have hxy : x = y :=
        digitChar_inj_lt x (hx x (by simp)) y (hy y (by simp)) h.1
      have : xs = ys := ih ys (fun d hd => hx d (by simp [hd]))
        (fun d hd => hy d (by simp [hd])) h.2
      simp [hxy, this]

theorem natRepr_inj : Function.Injective natRepr := by
  intro m n h
  unfold natRepr at h
  by_cases hm : m = 0 <;> by_cases hn : n = 0
  · omega
  · exfalso
    simp only [hm, if_pos rfl, if_neg hn] at h
    have hdata : ("0" : String).data = ((decDigits n).reverse).map Nat.digitChar :=
      congrArg String.data h
    have hall : ∀ d ∈ (decDigits n).reverse, d < 10 := by
      intro d hd; exact decDigits_lt_ten n n d (List.mem_reverse.mp hd)
    have h0 : ((0 : Nat) :: []).map Nat.digitChar = ((decDigits n).reverse).map Nat.digitChar := by
      simpa using hdata
    have := map_digitChar_inj [0] (decDigits n).reverse (by intro d hd; simp at hd; omega) hall h0
    have hrev : decDigits n = [0] := by
      have := congrArg List.reverse this
      simpa using this.symm
    have := ofDec_decDigits n
    rw [hrev] at this
    simp [ofDec] at this
    omega
  · exfalso
    simp only [hn, if_pos rfl, if_neg hm] at h
    have hdata : ((decDigits m).reverse).map Nat.digitChar = ("0" : String).data :=
      congrArg String.data h
    have hall : ∀ d ∈ (decDigits m).reverse, d < 10 := by
      intro d hd; exact decDigits_lt_ten m m d (List.mem_reverse.mp hd)
    have h0 : ((decDigits m).reverse).map Nat.digitChar = ((0 : Nat) :: []).map Nat.digitChar := by
      simpa using hdata
    have := map_digitChar_inj (decDigits m).reverse [0] hall (by intro d hd; simp at hd; omega) h0
    have hrev : decDigits m = [0] := by
      have := congrArg List.reverse this
      simpa using this
    have := ofDec_decDigits m
    rw [hrev] at this
    simp [ofDec] at this
    omega
  · simp only [if_neg hm, if_neg hn] at h
    have hdata : ((decDigits m).reverse).map Nat.digitChar
        = ((decDigits n).reverse).map Nat.digitChar := congrArg String.data h
    have hm' : ∀ d ∈ (decDigits m).reverse, d < 10 := by
      intro d hd; exact decDigits_lt_ten m m d (List.mem_reverse.mp hd)
    have hn' : ∀ d ∈ (decDigits n).reverse, d < 10 := by
      intro d hd; exact decDigits_lt_ten n n d (List.mem_reverse.mp hd)
    have := map_digitChar_inj _ _ hm' hn' hdata
    have hdd : decDigits m = decDigits n := by
      have := congrArg List.reverse this
      simpa using this
    have h1 := ofDec_decDigits m
    have h2 := ofDec_decDigits n
    rw [hdd] at h1
    omega

/-! ### Path pieces: `os.path.splitext`, `str.lower`, `make_friendly_path` -/

/-- Extension part of `os.path.splitext` applied to a basename (no path
separators): everything from the last dot on, unless every character before
that dot is itself a dot (leading dots are not an extension). -/
def splitextExt (name : String) : String :=
  let cs := name.data
  let afterRev := cs.reverse.takeWhile (fun c => !(c == '.'))
  if afterRev.length = cs.length then ""
  else if (cs.take (cs.length - afterRev.length - 1)).all (fun c => c == '.') then ""
  else ⟨'.' :: afterRev.reverse⟩

/-- Python `str.lower`, character by character (agrees with Python on the
ASCII extensions the script compares against). -/
def lowerStr (s : String) : String := ⟨s.data.map Char.toLower⟩

/-- The reserved characters of `make_friendly_path` (`invalid_chars` in the
source). -/
def invalid_chars : List Char := ['<', '>', ':', '"', '/', '\\', '|', '?', '*']

/-- `make_friendly_path`: each character of the reserved set is replaced by
an underscore, every other character is kept (the join of the source's list
comprehension). -/
def make_friendly_path (path : String) : String :=
  ⟨path.data.map (fun c => if c ∈ invalid_chars then '_' else c)⟩

/-! ### Parsed audio metadata and source files -/

/-- Result of `mutagen.flac.FLAC` on a file: each vorbis key resolves to a
list of values, or is absent. -/
structure FlacTags where
  artist : Option (List String)
  album : Option (List String)
  title : Option (List String)
  deriving DecidableEq

/-- Result of `mutagen.id3.ID3` on a file: the `str(...)` rendering of each
frame the script reads, or absence of the frame. -/
structure Id3Tags where
  tpe1 : Option String
  talb : Option String
  tit2 : Option String
  deriving DecidableEq

/-- One source file: its directory components and basename, its byte content
(abstracted to a content identity, which is all `filecmp.cmp` observes), and
the outcome of each mutagen constructor on it (`none` models the constructor
raising, which the script catches). -/
structure SrcFile where
  dir : List String
  name : String
  content : Nat
  flacParse : Option FlacTags
  id3Parse : Option Id3Tags
  deriving DecidableEq

/-- `os.path.join(root, name)` for an enumerated file. -/
def SrcFile.path (f : SrcFile) : List String := f.dir ++ [f.name]

/-! ### The destination filesystem -/

/-- Destination tree state: files as an association list from path
components (relative to the destination root) to content, plus the set of
directories. -/
structure FS where
  files : List (List String × Nat)
  dirs : List (List String)
  deriving DecidableEq

/-- Content of the file at `p`, if a file is there. -/
def FS.fileAt (fs : FS) (p : List String) : Option Nat :=
  (fs.files.find? (fun e => decide (e.1 = p))).map Prod.snd

/-- Is there a directory at `p`? -/
def FS.isDir (fs : FS) (p : List String) : Bool := decide (p ∈ fs.dirs)

/-- `os.path.exists`: a file or a directory occupies `p`. -/
def FS.pathTaken (fs : FS) (p : List String) : Bool := (fs.fileAt p).isSome || fs.isDir p

/-- `os.makedirs` under the script's `try ... except FileExistsError: pass`:
create the directory unless it already exists; already-existing is not an
error. -/
def FS.makedirs (fs : FS) (p : List String) : FS :=
  if p ∈ fs.dirs then fs else { fs with dirs := p :: fs.dirs }

/-! ### Tag extraction (lines 61-106 of the script) -/

/-- `audio[key][0]` guarded by `key in audio` and `len(audio[key]) == 1`:
the unique value of the key, when the key is present with exactly one
value. -/
def getSingle : Option (List String) → Option String
  | some [v] => some v
  | _ => none

/-- The extraction phase of `move_audio_file`: dispatch on the lowercased
extension (`.flac` uses the FLAC reader, anything else the ID3 reader), then
read artist, album and title, sanitizing each; `none` is the phase reaching
one of the `return 0` statements. -/
def extractTags (f : SrcFile) : Option (String × String × String) :=
  if lowerStr (splitextExt f.name) = ".flac" then
    match f.flacParse with
    | none => none
    | some t =>
      match getSingle t.artist, getSingle t.album, getSingle t.title with
      | some a, some al, some ti =>
        some (make_friendly_path a, make_friendly_path al, make_friendly_path ti)
      | _, _, _ => none
  else
    match f.id3Parse with
    | none => none
    | some t =>
      match t.tpe1, t.talb, t.tit2 with
      | some a, some al, some ti =>
        some (make_friendly_path a, make_friendly_path al, make_friendly_path ti)
      | _, _, _ => none

/-! ### Placement: the probe loop and `move_audio_file` -/

/-- The `n`-th candidate basename for a title: `title` unsuffixed for
`n = 0`, then `title_1`, `title_2`, ... (`dest_base + '_' +
str(duplicate_count)` in the source). -/
def candName (title ext : String) (n : Nat) : String :=
  if n = 0 then title ++ ext else title ++ "_" ++ natRepr n ++ ext

/-- The `n`-th candidate destination path for a sanitized triple. -/
def candPath (artist album title ext : String) (n : Nat) : List String :=
  [artist, album, candName title ext n]

/-- Outcome of the probe loop: a byte-identical file found at candidate `n`
(no copy), or candidate `n` free (copy there). -/
inductive ProbeResult where
  | duplicate : Nat → ProbeResult
  | fresh : Nat → ProbeResult
  deriving DecidableEq

/-- The `while os.path.exists(...)` loop of `move_audio_file`, with explicit
fuel.  While the candidate path is occupied: if a file is there, compare
contents (`filecmp.cmp`) and stop on a match, else move to the next
candidate; if a directory is there, `filecmp.cmp` raises, modelled `none`.
An unoccupied candidate is the copy target. -/
def probeLoop (fs : FS) (artist album title ext : String) (srcContent : Nat) :
    Nat → Nat → Option ProbeResult
  | 0, _ => none
  | fuel + 1, n =>
    if fs.pathTaken (candPath artist album title ext n) then
      match fs.fileAt (candPath artist album title ext n) with
      | some c =>
        if c = srcContent then some (ProbeResult.duplicate n)
        else probeLoop fs artist album title ext srcContent fuel (n + 1)
      | none => none
    else some (ProbeResult.fresh n)

/-- `move_audio_file src dest`: extract and sanitize the tags (returning
status 0 on any extraction failure, before touching the tree), make the
artist and album directories, then run the probe loop and either stop on a
byte-identical duplicate (status 1, no write) or copy the source content
into the first free candidate (status 1).  The fuel `files.length + 1`
is sufficient for the loop: the candidate paths are pairwise distinct, so
the loop cannot pass more existing files than the tree holds.  `none`
models the uncaught exception when a directory occupies a candidate path. -/
def move_audio_file (src : SrcFile) (dest : FS) : Option (FS × Nat) :=
  let ext := splitextExt src.name
  match extractTags src with
  | none => some (dest, 0)
  | some (artist, album, title) =>
    let fs1 := dest.makedirs [artist]
    let fs2 := fs1.makedirs [artist, album]
    match probeLoop fs2 artist album title ext src.content (fs2.files.length + 1) 0 with
    | none => none
    | some (ProbeResult.duplicate _) => some (fs2, 1)
    | some (ProbeResult.fresh n) =>
      some ({ fs2 with
                files := (candPath artist album title ext n, src.content) :: fs2.files },
            1)

/-! ### The tree walker (`organize_by_tag`) -/

/-- `valid_exts` from the source. -/
def valid_exts : List String := [".flac", ".mp3"]

/-- `unsupported_exts` from the source (including its duplicated `.aac`). -/
def unsupported_exts : List String :=
  [".wav", ".pcm", ".aiff", ".aac", ".m4a", ".ogg", ".wma",
   ".aac", ".alac", ".ape", ".opus", ".ra", ".rm", ".vox"]

/-- The three-way classification the walker applies to each enumerated
file. -/
inductive FileClass where
  | recognized
  | unsupported
  | ignored
  deriving DecidableEq

/-- Classification by lowercased extension: the `if ext in valid_exts /
elif ext in unsupported_exts / (implicit else)` ladder of the walker. -/
def classify (name : String) : FileClass :=
  let ext := lowerStr (splitextExt name)
  if ext ∈ valid_exts then FileClass.recognized
  else if ext ∈ unsupported_exts then FileClass.unsupported
  else FileClass.ignored

/-- Walker state: the destination tree and the two failure lists.  The
`attempted` field is observational instrumentation only: it records each
invocation of `move_audio_file`, so that theorems can speak about which
files are ever dispatched to extraction; no definition reads it. -/
structure WalkState where
  fs : FS
  move_failures : List (List String)
  unsupported_files : List (List String)
  attempted : List (List String)
  deriving DecidableEq

/-- The body of the walker's inner loop for one enumerated file. -/
def processFile (st : WalkState) (f : SrcFile) : Option WalkState :=
  let ext := lowerStr (splitextExt f.name)
  if ext ∈ valid_exts then
    match move_audio_file f st.fs with
    | none => none
    | some (fs2, status) =>
      some { st with
               fs := fs2
               attempted := st.attempted ++ [f.path]
               move_failures :=
                 if status = 0 then st.move_failures ++ [f.path] else st.move_failures }
  else if ext ∈ unsupported_exts then
    some { st with unsupported_files := st.unsupported_files ++ [f.path] }
  else
    some st

/-- The walk over the enumerated files, in enumeration order. -/
def walkFiles : WalkState → List SrcFile → Option WalkState
  | st, [] => some st
  | st, f :: rest =>
    match processFile st f with
    | none => none
    | some st2 => walkFiles st2 rest

/-- `organize_by_tag`, up to the report-file output (external I/O): walk
every enumerated file against an initial destination tree, starting from
empty failure lists. -/
def organize_by_tag (dest : FS) (files : List SrcFile) : Option WalkState :=
  walkFiles { fs := dest, move_failures := [], unsupported_files := [], attempted := [] } files

/-- Spec-side characterization of extraction failure, for comparison with
the code: the chosen reader raises, or (FLAC) some field does not resolve to
exactly one value, or (ID3) some frame is absent.  Emptiness of a value is
deliberately not here: the code does not test for it. -/
def notExactlyOne (o : Option (List String)) : Prop :=
  ∀ l, o = some l → l.length ≠ 1

/-- Spec-side failure condition for the extraction phase (see
`notExactlyOne`). -/
def extractionFails (f : SrcFile) : Prop :=
  if lowerStr (splitextExt f.name) = ".flac" then
    match f.flacParse with
    | none => True
    | some t => notExactlyOne t.artist ∨ notExactlyOne t.album ∨ notExactlyOne t.title
  else
    match f.id3Parse with
    | none => True
    | some t => t.tpe1 = none ∨ t.talb = none ∨ t.tit2 = none

/-! ### Helper lemmas -/

theorem string_data_inj {a b : String} (h : a.data = b.data) : a = b := by
  cases a
  cases b
  exact congrArg String.mk h

theorem natRepr_data_ne_nil (k : Nat) : (natRepr k).data ≠ [] := by
  unfold natRepr
  by_cases h : k = 0
  · simp only [h, if_pos rfl]
    decide
  · simp only [h, if_neg h]
    intro hc
    have hnil : (decDigits k).reverse = [] := List.map_eq_nil_iff.mp hc
    have hd : decDigits k = [] := by simpa using hnil
    have hval := ofDec_decDigits k
    rw [hd] at hval
    simp [ofDec] at hval
    exact h hval.symm

theorem candName_inj (ti e : String) : Function.Injective (candName ti e) := by
  intro n m h
  unfold candName at h
  have hlen1 : 1 ≤ ("_" : String).data.length := by decide
  by_cases hn : n = 0 <;> by_cases hm : m = 0
  · rw [hn, hm]
  · exfalso
    rw [if_pos hn, if_neg hm] at h
    have hd := congrArg String.data h
    simp only [String.data_append] at hd
    have hlen := congrArg List.length hd
    simp only [List.length_append] at hlen
    have h2 : 1 ≤ (natRepr m).data.length := by
      cases hnr : (natRepr m).data with
      | nil => exact absurd hnr (natRepr_data_ne_nil m)
      | cons x xs => simp
    omega
  · exfalso
    rw [if_neg hn, if_pos hm] at h
    have hd := congrArg String.data h
    simp only [String.data_append] at hd
    have hlen := congrArg List.length hd
    simp only [List.length_append] at hlen
    have h2 : 1 ≤ (natRepr n).data.length := by
      cases hnr : (natRepr n).data with
      | nil => exact absurd hnr (natRepr_data_ne_nil n)
      | cons x xs => simp
    omega
  · rw [if_neg hn, if_neg hm] at h
    have hd := congrArg String.data h
    simp only [String.data_append, List.append_assoc] at hd
    have h1 := List.append_cancel_left hd
    have h2 := List.append_cancel_left h1
    have h3 := List.append_cancel_right h2
    exact natRepr_inj (string_data_inj h3)

theorem candPath_inj (a al ti e : String) : Function.Injective (candPath a al ti e) := by
  intro n m h
  unfold candPath at h
  simp only [List.cons.injEq, and_true] at h
  exact candName_inj ti e h.2.2

theorem fileAt_isSome_mem {fs : FS} {p : List String} (h : (fs.fileAt p).isSome = true) :
    p ∈ fs.files.map Prod.fst := by
  unfold FS.fileAt at h
  cases hf : fs.files.find? (fun e => decide (e.1 = p)) with
  | none => rw [hf] at h; simp at h
  | some ent =>
    have hmem := List.mem_of_find?_eq_some hf
    have hpred := List.find?_some hf
    simp only [decide_eq_true_eq] at hpred
    exact List.mem_map.mpr ⟨ent, hmem, hpred⟩

theorem cand_chain_bound (fs : FS) (a al ti e : String) (k : Nat)
    (h : ∀ m, m < k → (fs.fileAt (candPath a al ti e m)).isSome = true) :
    k ≤ fs.files.length := by
  have hsub : (List.range k).map (candPath a al ti e) ⊆ fs.files.map Prod.fst := by
    intro p hp
    rcases List.mem_map.mp hp with ⟨m, hm, rfl⟩
    exact fileAt_isSome_mem (h m (List.mem_range.mp hm))
  have hnd : ((List.range k).map (candPath a al ti e)).Nodup :=
    List.Nodup.map (candPath_inj a al ti e) (List.nodup_range k)
  have hle := (hnd.subperm hsub).length_le
  simpa using hle

theorem makedirs_files (fs : FS) (p : List String) : (fs.makedirs p).files = fs.files := by
  unfold FS.makedirs
  split <;> rfl

theorem fileAt_makedirs (fs : FS) (p q : List String) :
    (fs.makedirs p).fileAt q = fs.fileAt q := by
  unfold FS.fileAt
  rw [makedirs_files]

theorem isDir_makedirs_ne (fs : FS) (p q : List String) (h : q ≠ p) :
    (fs.makedirs p).isDir q = fs.isDir q := by
  unfold FS.makedirs FS.isDir
  split
  · rfl
  · simp [List.mem_cons, h]

theorem mem_makedirs_self (fs : FS) (p : List String) : p ∈ (fs.makedirs p).dirs := by
  unfold FS.makedirs
  split
  · assumption
  · exact List.mem_cons_self p _

theorem candPath_ne_albumdir (a al ti e : String) (n : Nat) :
    candPath a al ti e n ≠ [a, al] := by
  intro h
  have := congrArg List.length h
  simp [candPath] at this

theorem candPath_ne_artistdir (a al ti e : String) (n : Nat) :
    candPath a al ti e n ≠ [a] := by
  intro h
  have := congrArg List.length h
  simp [candPath] at this

theorem probeLoop_succ (fs : FS) (a al ti e : String) (s f k : Nat) :
    probeLoop fs a al ti e s (f + 1) k =
      if fs.pathTaken (candPath a al ti e k) then
        match fs.fileAt (candPath a al ti e k) with
        | some c =>
          if c = s then some (ProbeResult.duplicate k)
          else probeLoop fs a al ti e s f (k + 1)
        | none => none
      else some (ProbeResult.fresh k) := rfl

theorem probeLoop_fresh_of (fs : FS) (a al ti e : String) (s : Nat) (n : Nat)
    (hprev : ∀ m, m < n → ∃ c, fs.fileAt (candPath a al ti e m) = some c ∧ c ≠ s)
    (hfree : fs.pathTaken (candPath a al ti e n) = false) :
    ∀ fuel k, k ≤ n → n - k < fuel →
      probeLoop fs a al ti e s fuel k = some (ProbeResult.fresh n) := by
  intro fuel
  induction fuel with
  | zero => intro k hk hlt; omega
  | succ f ih =>
    intro k hk hlt
    by_cases hkn : k = n
    · subst hkn
      rw [probeLoop_succ]
      simp [hfree]
    · have hklt : k < n := by omega
      obtain ⟨c, hc, hne⟩ := hprev k hklt
      have htaken : fs.pathTaken (candPath a al ti e k) = true := by
        unfold FS.pathTaken
        rw [hc]
        simp
      rw [probeLoop_succ]
      simp only [htaken, if_true, hc, hne, if_false, ite_false]
      exact ih (k + 1) (by omega) (by omega)

theorem probeLoop_dup_of (fs : FS) (a al ti e : String) (s : Nat) (n : Nat)
    (hall : ∀ m, m ≤ n → (fs.fileAt (candPath a al ti e m)).isSome = true)
    (hdup : fs.fileAt (candPath a al ti e n) = some s) :
    ∀ fuel k, k ≤ n → n - k < fuel →
      ∃ j, probeLoop fs a al ti e s fuel k = some (ProbeResult.duplicate j) := by
  intro fuel
  induction fuel with
  | zero => intro k hk hlt; omega
  | succ f ih =>
    intro k hk hlt
    obtain ⟨c, hc⟩ := Option.isSome_iff_exists.mp (hall k hk)
    have htaken : fs.pathTaken (candPath a al ti e k) = true := by
      unfold FS.pathTaken
      rw [hc]
      simp
    by_cases hcs : c = s
    · refine ⟨k, ?_⟩
      rw [probeLoop_succ]
      simp [htaken, hc, hcs]
    · have hkn : k ≠ n := by
        intro hke
        subst hke
        rw [hdup] at hc
        exact hcs (Option.some.inj hc).symm
      obtain ⟨j, hj⟩ := ih (k + 1) (by omega) (by omega)
      refine ⟨j, ?_⟩
      rw [probeLoop_succ]
      simp only [htaken, if_true, hc, hcs, if_false, ite_false]
      exact hj

theorem mem_makedirs_mono (fs : FS) (p q : List String) (h : q ∈ fs.dirs) :
    q ∈ (fs.makedirs p).dirs := by
  unfold FS.makedirs
  split
  · exact h
  · exact List.mem_cons_of_mem _ h

theorem move_eq_probe (src : SrcFile) (dest : FS) (a al ti : String)
    (hex : extractTags src = some (a, al, ti)) :
    move_audio_file src dest =
      (match probeLoop ((dest.makedirs [a]).makedirs [a, al]) a al ti (splitextExt src.name)
          src.content (((dest.makedirs [a]).makedirs [a, al]).files.length + 1) 0 with
        | none => none
        | some (ProbeResult.duplicate _) => some ((dest.makedirs [a]).makedirs [a, al], 1)
        | some (ProbeResult.fresh n) =>
          some ({ (dest.makedirs [a]).makedirs [a, al] with
                    files := (candPath a al ti (splitextExt src.name) n, src.content)
                      :: ((dest.makedirs [a]).makedirs [a, al]).files }, 1)) := by
  unfold move_audio_file
  rw [hex]

theorem move_result_status {f : SrcFile} {fs fs2 : FS} {s : Nat}
    (h : move_audio_file f fs = some (fs2, s)) :
    (s = 0 ∧ fs2 = fs ∧ extractTags f = none) ∨ (s = 1 ∧ extractTags f ≠ none) := by
  cases hex : extractTags f with
  | none =>
    unfold move_audio_file at h
    rw [hex] at h
    simp only [Option.some.injEq, Prod.mk.injEq] at h
    exact Or.inl ⟨h.2.symm, h.1.symm, rfl⟩
  | some t =>
    obtain ⟨a, al, ti⟩ := t
    rw [move_eq_probe f fs a al ti hex] at h
    cases hp : probeLoop ((fs.makedirs [a]).makedirs [a, al]) a al ti (splitextExt f.name)
        f.content (((fs.makedirs [a]).makedirs [a, al]).files.length + 1) 0 with
    | none =>
      rw [hp] at h
      simp at h
    | some r =>
      cases r with
      | duplicate j =>
        rw [hp] at h
        simp only [Option.some.injEq, Prod.mk.injEq] at h
        exact Or.inr ⟨h.2.symm, by simp⟩
      | fresh j =>
        rw [hp] at h
        simp only [Option.some.injEq, Prod.mk.injEq] at h
        exact Or.inr ⟨h.2.symm, by simp⟩

/-- C9: every failure return of `move_audio_file` (status 0) happens before
any directory creation or file write: the destination tree returned with
status 0 is exactly the input tree, files and directories alike. -/
theorem move_failure_atomic (src : SrcFile) (dest res : FS)
    (h : move_audio_file src dest = some (res, 0)) : res = dest := by
  rcases move_result_status h with ⟨-, hfs, -⟩ | ⟨hs, -⟩
  · exact hfs
  · omega

/-- Witness for C9: a file both mutagen readers reject is reported as
status 0 with the destination tree untouched. -/
theorem move_failure_atomic_witness :
    move_audio_file ⟨[], "x.mp3", 0, none, none⟩ ⟨[], []⟩ = some (⟨[], []⟩, 0)
    ∧ (⟨[], []⟩ : FS) = ⟨[], []⟩ :=
  ⟨rfl, move_failure_atomic ⟨[], "x.mp3", 0, none, none⟩ ⟨[], []⟩ ⟨[], []⟩ rfl⟩

/-- C5: the sanitizer (a total function by construction) removes every
reserved character, replacing each occurrence with an underscore and keeping
every other character in place. -/
theorem make_friendly_path_chars (s : String) :
    (∀ c ∈ (make_friendly_path s).data, c ∉ invalid_chars)
    ∧ ∀ i : Nat, (make_friendly_path s).data[i]?
        = (s.data[i]?).map (fun c => if c ∈ invalid_chars then '_' else c) := by
  constructor
  · intro c hc
    unfold make_friendly_path at hc
    simp only [List.mem_map] at hc
    obtain ⟨d, _, hd⟩ := hc
    by_cases h : d ∈ invalid_chars
    · rw [if_pos h] at hd
      rw [← hd]
      decide
    · rw [if_neg h] at hd
      rw [← hd]
      exact h
  · intro i
    show (s.data.map fun c => if c ∈ invalid_chars then '_' else c)[i]?
        = (s.data[i]?).map fun c => if c ∈ invalid_chars then '_' else c
    simp [List.getElem?_map]

/-- C6: the sanitizer is idempotent. -/
theorem make_friendly_path_idem (s : String) :
    make_friendly_path (make_friendly_path s) = make_friendly_path s := by
  apply string_data_inj
  show ((s.data.map fun c => if c ∈ invalid_chars then '_' else c).map
        fun c => if c ∈ invalid_chars then '_' else c)
      = s.data.map fun c => if c ∈ invalid_chars then '_' else c
  rw [List.map_map]
  apply List.map_congr_left
  intro c _
  by_cases h : c ∈ invalid_chars
  · have h2 : ('_' : Char) ∉ invalid_chars := by decide
    simp only [Function.comp_apply, if_pos h, if_neg h2]
  · simp only [Function.comp_apply, if_neg h]

/-- C10: the sanitizer preserves length, replacing characters one for one. -/
theorem make_friendly_path_length (s : String) :
    (make_friendly_path s).length = s.length := by
  obtain ⟨d⟩ := s
  show (d.map fun c => if c ∈ invalid_chars then '_' else c).length = d.length
  exact List.length_map _ _

/-- C1: when the unsuffixed destination slot (and possibly further numbered
slots) hold content different from the source, the probe visits candidates
in strictly increasing suffix order from the unsuffixed name and copies the
source into the first candidate slot not on disk, prepending it to the file
list and leaving every existing file untouched (no reordering or renaming of
existing numbered files). -/
theorem move_collision_first_free (src : SrcFile) (dest : FS) (a al ti : String) (n : Nat)
    (hex : extractTags src = some (a, al, ti))
    (hpos : 1 ≤ n)
    (hprev : ∀ m, m < n →
      ∃ c, dest.fileAt (candPath a al ti (splitextExt src.name) m) = some c ∧ c ≠ src.content)
    (hfree : dest.fileAt (candPath a al ti (splitextExt src.name) n) = none)
    (hnodir : candPath a al ti (splitextExt src.name) n ∉ dest.dirs) :
    move_audio_file src dest =
      some ({ files := (candPath a al ti (splitextExt src.name) n, src.content) :: dest.files,
              dirs := ((dest.makedirs [a]).makedirs [a, al]).dirs }, 1) := by
  have hfiles2 : ((dest.makedirs [a]).makedirs [a, al]).files = dest.files := by
    rw [makedirs_files, makedirs_files]
  have hfa : ∀ q, ((dest.makedirs [a]).makedirs [a, al]).fileAt q = dest.fileAt q := by
    intro q
    rw [fileAt_makedirs, fileAt_makedirs]
  have hprev2 : ∀ m, m < n →
      ∃ c, ((dest.makedirs [a]).makedirs [a, al]).fileAt
          (candPath a al ti (splitextExt src.name) m) = some c ∧ c ≠ src.content := by
    intro m hm
    rw [hfa]
    exact hprev m hm
  have hdir2 : ((dest.makedirs [a]).makedirs [a, al]).isDir
      (candPath a al ti (splitextExt src.name) n) = false := by
    rw [isDir_makedirs_ne _ _ _ (candPath_ne_albumdir a al ti _ n),
        isDir_makedirs_ne _ _ _ (candPath_ne_artistdir a al ti _ n)]
    unfold FS.isDir
    simpa using hnodir
  have hfree2 : ((dest.makedirs [a]).makedirs [a, al]).pathTaken
      (candPath a al ti (splitextExt src.name) n) = false := by
    unfold FS.pathTaken
    rw [hfa, hfree, hdir2]
    rfl
  have hbound : n ≤ dest.files.length := by
    apply cand_chain_bound dest a al ti (splitextExt src.name) n
    intro m hm
    obtain ⟨c, hc, -⟩ := hprev m hm
    rw [hc]
    rfl
  have hloop := probeLoop_fresh_of ((dest.makedirs [a]).makedirs [a, al]) a al ti
      (splitextExt src.name) src.content n hprev2 hfree2
      (((dest.makedirs [a]).makedirs [a, al]).files.length + 1) 0 (by omega)
      (by rw [hfiles2]; omega)
  rw [move_eq_probe src dest a al ti hex, hloop]
  simp [hfiles2]

/-- Witness for C1: a second distinct file with the same triple lands in
`T_1.mp3`, with the existing `T.mp3` untouched. -/
theorem move_collision_first_free_witness :
    move_audio_file ⟨[], "x.mp3", 7, none, some ⟨some "A", some "B", some "T"⟩⟩
        ⟨[(["A", "B", "T.mp3"], 5)], [["A"], ["A", "B"]]⟩
      = some (⟨[(["A", "B", "T_1.mp3"], 7), (["A", "B", "T.mp3"], 5)],
              [["A"], ["A", "B"]]⟩, 1) := by
  have h := move_collision_first_free
      ⟨[], "x.mp3", 7, none, some ⟨some "A", some "B", some "T"⟩⟩
      ⟨[(["A", "B", "T.mp3"], 5)], [["A"], ["A", "B"]]⟩ "A" "B" "T" 1
      rfl (by decide)
      (fun m hm => by
        interval_cases m
        exact ⟨5, rfl, by decide⟩)
      rfl (by decide)
  exact h.trans (by rfl)

/-- C2: when the probe chain up to candidate `n` is fully occupied and
candidate `n` is byte-identical to the source, the move returns success
with the destination file list exactly unchanged (same count, same
bytes): no copy happens. -/
theorem move_duplicate_no_copy (src : SrcFile) (dest : FS) (a al ti : String) (n : Nat)
    (hex : extractTags src = some (a, al, ti))
    (hall : ∀ m, m ≤ n →
      (dest.fileAt (candPath a al ti (splitextExt src.name) m)).isSome = true)
    (hdup : dest.fileAt (candPath a al ti (splitextExt src.name) n) = some src.content) :
    move_audio_file src dest =
      some ({ files := dest.files,
              dirs := ((dest.makedirs [a]).makedirs [a, al]).dirs }, 1) := by
  have hfiles2 : ((dest.makedirs [a]).makedirs [a, al]).files = dest.files := by
    rw [makedirs_files, makedirs_files]
  have hfa : ∀ q, ((dest.makedirs [a]).makedirs [a, al]).fileAt q = dest.fileAt q := by
    intro q
    rw [fileAt_makedirs, fileAt_makedirs]
  have hall2 : ∀ m, m ≤ n →
      (((dest.makedirs [a]).makedirs [a, al]).fileAt
        (candPath a al ti (splitextExt src.name) m)).isSome = true := by
    intro m hm
    rw [hfa]
    exact hall m hm
  have hdup2 : ((dest.makedirs [a]).makedirs [a, al]).fileAt
      (candPath a al ti (splitextExt src.name) n) = some src.content := by
    rw [hfa]
    exact hdup
  have hbound : n + 1 ≤ dest.files.length := by
    apply cand_chain_bound dest a al ti (splitextExt src.name) (n + 1)
    intro m hm
    exact hall m (by omega)
  obtain ⟨j, hloop⟩ := probeLoop_dup_of ((dest.makedirs [a]).makedirs [a, al]) a al ti
      (splitextExt src.name) src.content n hall2 hdup2
      (((dest.makedirs [a]).makedirs [a, al]).files.length + 1) 0 (by omega)
      (by rw [hfiles2]; omega)
  rw [move_eq_probe src dest a al ti hex, hloop]
  simp only [← hfiles2]

/-- Witness for C2: re-placing byte-identical content on an occupied
unsuffixed slot reports success and leaves the file list unchanged. -/
theorem move_duplicate_no_copy_witness :
    move_audio_file ⟨[], "x.mp3", 5, none, some ⟨some "A", some "B", some "T"⟩⟩
        ⟨[(["A", "B", "T.mp3"], 5)], [["A"], ["A", "B"]]⟩
      = some (⟨[(["A", "B", "T.mp3"], 5)], [["A"], ["A", "B"]]⟩, 1) := by
  have h := move_duplicate_no_copy
      ⟨[], "x.mp3", 5, none, some ⟨some "A", some "B", some "T"⟩⟩
      ⟨[(["A", "B", "T.mp3"], 5)], [["A"], ["A", "B"]]⟩ "A" "B" "T" 0
      rfl (by decide) rfl
  exact h.trans (by rfl)

/-- C4: with no file (or directory) at the unsuffixed destination path, the
source is copied exactly there, and the artist and album directories are
present afterwards, whether or not they already existed (the theorem places
no condition on `dest.dirs` beyond the candidate path itself, so
directory-already-exists is not an error). -/
theorem move_new_path (src : SrcFile) (dest : FS) (a al ti : String)
    (hex : extractTags src = some (a, al, ti))
    (hfree : dest.fileAt (candPath a al ti (splitextExt src.name) 0) = none)
    (hnodir : candPath a al ti (splitextExt src.name) 0 ∉ dest.dirs) :
    move_audio_file src dest =
      some ({ files := (candPath a al ti (splitextExt src.name) 0, src.content) :: dest.files,
              dirs := ((dest.makedirs [a]).makedirs [a, al]).dirs }, 1)
    ∧ [a] ∈ ((dest.makedirs [a]).makedirs [a, al]).dirs
    ∧ [a, al] ∈ ((dest.makedirs [a]).makedirs [a, al]).dirs := by
  refine ⟨?_, ?_, ?_⟩
  · have hfiles2 : ((dest.makedirs [a]).makedirs [a, al]).files = dest.files := by
      rw [makedirs_files, makedirs_files]
    have hfa : ∀ q, ((dest.makedirs [a]).makedirs [a, al]).fileAt q = dest.fileAt q := by
      intro q
      rw [fileAt_makedirs, fileAt_makedirs]
    have hdir2 : ((dest.makedirs [a]).makedirs [a, al]).isDir
        (candPath a al ti (splitextExt src.name) 0) = false := by
      rw [isDir_makedirs_ne _ _ _ (candPath_ne_albumdir a al ti _ 0),
          isDir_makedirs_ne _ _ _ (candPath_ne_artistdir a al ti _ 0)]
      unfold FS.isDir
      simpa using hnodir
    have hfree2 : ((dest.makedirs [a]).makedirs [a, al]).pathTaken
        (candPath a al ti (splitextExt src.name) 0) = false := by
      unfold FS.pathTaken
      rw [hfa, hfree, hdir2]
      rfl
    have hloop := probeLoop_fresh_of ((dest.makedirs [a]).makedirs [a, al]) a al ti
        (splitextExt src.name) src.content 0 (by omega) hfree2
        (((dest.makedirs [a]).makedirs [a, al]).files.length + 1) 0 (by omega) (by omega)
    rw [move_eq_probe src dest a al ti hex, hloop]
    simp [hfiles2]
  · exact mem_makedirs_mono _ _ _ (mem_makedirs_self dest [a])
  · exact mem_makedirs_self _ _

/-- Witness for C4: an empty destination tree receives `A/B/T.mp3`, with
both directories created. -/
theorem move_new_path_witness :
    move_audio_file ⟨[], "x.mp3", 7, none, some ⟨some "A", some "B", some "T"⟩⟩ ⟨[], []⟩
      = some (⟨[(["A", "B", "T.mp3"], 7)], [["A", "B"], ["A"]]⟩, 1) := by
  have h := move_new_path ⟨[], "x.mp3", 7, none, some ⟨some "A", some "B", some "T"⟩⟩
      ⟨[], []⟩ "A" "B" "T" rfl rfl (by decide)
  exact h.1.trans (by rfl)

theorem getSingle_none_iff (o : Option (List String)) :
    getSingle o = none ↔ notExactlyOne o := by
  cases o with
  | none => simp [getSingle, notExactlyOne]
  | some l =>
    cases l with
    | nil => simp [getSingle, notExactlyOne]
    | cons a t =>
      cases t with
      | nil => simp [getSingle, notExactlyOne]
      | cons b t2 => simp [getSingle, notExactlyOne]

theorem extractTags_none_iff (f : SrcFile) : extractTags f = none ↔ extractionFails f := by
  unfold extractTags extractionFails
  by_cases hflac : lowerStr (splitextExt f.name) = ".flac"
  · rw [if_pos hflac, if_pos hflac]
    cases f.flacParse with
    | none => simp
    | some t =>
      cases hA : getSingle t.artist <;> cases hB : getSingle t.album <;>
        cases hC : getSingle t.title <;>
        simp [← getSingle_none_iff, hA, hB, hC]
  · rw [if_neg hflac, if_neg hflac]
    cases f.id3Parse with
    | none => simp
    | some t =>
      cases hA : t.tpe1 <;> cases hB : t.talb <;> cases hC : t.tit2 <;> simp [hA, hB, hC]

/-- C3 counterexample: a FLAC file whose artist tag is present with exactly
one value that is the empty string.  The claim requires extraction to fail
(status 0); the code only checks presence and value count, so extraction
succeeds with an empty artist field and the file is placed with status 1. -/
theorem extraction_accepts_empty_field :
    extractTags ⟨[], "a.flac", 7, some ⟨some [""], some ["B"], some ["T"]⟩, none⟩
        = some ("", "B", "T")
    ∧ (move_audio_file ⟨[], "a.flac", 7, some ⟨some [""], some ["B"], some ["T"]⟩, none⟩
        ⟨[], []⟩).map Prod.snd = some 1 :=
  ⟨rfl, rfl⟩

/-- C3 (amended): `move_audio_file` returns the failure value 0 (using no
partial tag set and leaving the tree untouched) exactly when the chosen
reader raises, or — for the block-based format — some of artist, album,
title resolves to zero or more than one value, or — for the frame-based
format — some of the three frames is absent.  Emptiness of a present value
is not checked: extracted fields may be empty strings. -/
theorem move_zero_iff_extraction_fails (f : SrcFile) (dest : FS) :
    move_audio_file f dest = some (dest, 0) ↔ extractionFails f := by
  constructor
  · intro h
    rcases move_result_status h with ⟨-, -, hex⟩ | ⟨hs, -⟩
    · exact (extractTags_none_iff f).mp hex
    · exact absurd hs (by decide)
  · intro h
    have hex : extractTags f = none := (extractTags_none_iff f).mpr h
    unfold move_audio_file
    rw [hex]

/-- Witness for C3's amended theorem: a FLAC file whose album key holds two
values fails extraction with status 0. -/
theorem move_zero_iff_extraction_fails_witness :
    move_audio_file ⟨[], "a.flac", 7, some ⟨some ["A"], some ["B", "C"], some ["T"]⟩, none⟩
        ⟨[], []⟩ = some (⟨[], []⟩, 0) :=
  (move_zero_iff_extraction_fails
      ⟨[], "a.flac", 7, some ⟨some ["A"], some ["B", "C"], some ["T"]⟩, none⟩
      ⟨[], []⟩).mpr
    (by
      show extractionFails _
      unfold extractionFails
      rw [if_pos (by rfl)]
      exact Or.inr (Or.inl (by intro l hl hlen; cases hl; simp at hlen)))

/-- C7: the walker classifies each enumerated file by lowercased extension
into exactly one of three classes: recognized files are dispatched to
extraction/placement (recorded in the `attempted` log, unsupported list
untouched); known-but-unsupported extensions are appended to the
unsupported list with the rest of the state unchanged, never invoking
extraction; any other extension leaves the state entirely unchanged and so
appears in no failure list. -/
theorem walker_classifies (st : WalkState) (f : SrcFile) :
    (classify f.name = FileClass.recognized ∨ classify f.name = FileClass.unsupported
      ∨ classify f.name = FileClass.ignored)
    ∧ (classify f.name = FileClass.recognized →
        ∀ st2, processFile st f = some st2 →
          st2.attempted = st.attempted ++ [f.path]
            ∧ st2.unsupported_files = st.unsupported_files)
    ∧ (classify f.name = FileClass.unsupported →
        processFile st f
          = some { st with unsupported_files := st.unsupported_files ++ [f.path] })
    ∧ (classify f.name = FileClass.ignored → processFile st f = some st) := by
  by_cases h1 : lowerStr (splitextExt f.name) ∈ valid_exts
  · have hcl : classify f.name = FileClass.recognized := by
      unfold classify
      rw [if_pos h1]
    refine ⟨Or.inl hcl, ?_, ?_, ?_⟩
    · intro _ st2 h2
      unfold processFile at h2
      rw [if_pos h1] at h2
      cases hm : move_audio_file f st.fs with
      | none =>
        rw [hm] at h2
        exact absurd h2 (by simp)
      | some r =>
        obtain ⟨fs2, status⟩ := r
        rw [hm] at h2
        simp only [Option.some.injEq] at h2
        subst h2
        exact ⟨rfl, rfl⟩
    · intro h
      rw [hcl] at h
      exact absurd h (by decide)
    · intro h
      rw [hcl] at h
      exact absurd h (by decide)
  · by_cases h2 : lowerStr (splitextExt f.name) ∈ unsupported_exts
    · have hcl : classify f.name = FileClass.unsupported := by
        unfold classify
        rw [if_neg h1, if_pos h2]
      refine ⟨Or.inr (Or.inl hcl), ?_, ?_, ?_⟩
      · intro h
        rw [hcl] at h
        exact absurd h (by decide)
      · intro _
        unfold processFile
        rw [if_neg h1, if_pos h2]
      · intro h
        rw [hcl] at h
        exact absurd h (by decide)
    · have hcl : classify f.name = FileClass.ignored := by
        unfold classify
        rw [if_neg h1, if_neg h2]
      refine ⟨Or.inr (Or.inr hcl), ?_, ?_, ?_⟩
      · intro h
        rw [hcl] at h
        exact absurd h (by decide)
      · intro h
        rw [hcl] at h
        exact absurd h (by decide)
      · intro _
        unfold processFile
        rw [if_neg h1, if_neg h2]

/-- Witness for C7: a `.wav` file goes to the unsupported list only, with
extraction never invoked. -/
theorem walker_classifies_witness :
    processFile ⟨⟨[], []⟩, [], [], []⟩ ⟨["d"], "x.wav", 3, none, none⟩
      = some ⟨⟨[], []⟩, [], [["d", "x.wav"]], []⟩ := by
  have h := (walker_classifies ⟨⟨[], []⟩, [], [], []⟩ ⟨["d"], "x.wav", 3, none, none⟩).2.2.1
      (by rfl)
  exact h.trans (by rfl)

theorem processFile_some_effects {st : WalkState} {f : SrcFile} {st2 : WalkState}
    (h : processFile st f = some st2) :
    st2.attempted = st.attempted
        ++ (if classify f.name = FileClass.recognized then [f.path] else [])
    ∧ st2.move_failures = st.move_failures
        ++ (if classify f.name = FileClass.recognized ∧ extractTags f = none
            then [f.path] else []) := by
  unfold processFile at h
  by_cases h1 : lowerStr (splitextExt f.name) ∈ valid_exts
  · have hcl : classify f.name = FileClass.recognized := by
      unfold classify
      rw [if_pos h1]
    rw [if_pos h1] at h
    cases hm : move_audio_file f st.fs with
    | none =>
      rw [hm] at h
      exact absurd h (by simp)
    | some r =>
      obtain ⟨fs2, status⟩ := r
      rw [hm] at h
      simp only [Option.some.injEq] at h
      subst h
      rcases move_result_status hm with ⟨hs, -, hex⟩ | ⟨hs, hex⟩
      · subst hs
        simp [hcl, hex]
      · subst hs
        simp [hcl, hex]
  · by_cases h2 : lowerStr (splitextExt f.name) ∈ unsupported_exts
    · have hcl : classify f.name = FileClass.unsupported := by
        unfold classify
        rw [if_neg h1, if_pos h2]
      rw [if_neg h1, if_pos h2] at h
      simp only [Option.some.injEq] at h
      subst h
      simp [hcl]
    · have hcl : classify f.name = FileClass.ignored := by
        unfold classify
        rw [if_neg h1, if_neg h2]
      rw [if_neg h1, if_neg h2] at h
      simp only [Option.some.injEq] at h
      subst h
      simp [hcl]

/-- C8: a per-file failure of `move_audio_file` (status 0) never aborts the
walk: given a completed walk, every recognized file was dispatched exactly
once, in enumeration order (the `attempted` log is exactly the list of
recognized files), and the failure list is exactly the recognized files
whose extraction failed — files after a failure are still processed. -/
theorem walker_never_aborts (files : List SrcFile) :
    ∀ st st2, walkFiles st files = some st2 →
      st2.attempted = st.attempted
          ++ (files.filter
              (fun f => decide (classify f.name = FileClass.recognized))).map SrcFile.path
      ∧ st2.move_failures = st.move_failures
          ++ (files.filter
              (fun f => decide (classify f.name = FileClass.recognized)
                && (extractTags f).isNone)).map SrcFile.path := by
  induction files with
  | nil =>
    intro st st2 h
    unfold walkFiles at h
    simp only [Option.some.injEq] at h
    subst h
    simp
  | cons f rest ih =>
    intro st st2 h
    unfold walkFiles at h
    cases hp : processFile st f with
    | none =>
      rw [hp] at h
      exact absurd h (by simp)
    | some stm =>
      rw [hp] at h
      obtain ⟨ha, hf⟩ := processFile_some_effects hp
      obtain ⟨ha2, hf2⟩ := ih stm st2 h
      constructor
      · rw [ha2, ha, List.filter_cons]
        by_cases hc : classify f.name = FileClass.recognized
        · simp [hc, List.append_assoc]
        · simp [hc]
      · rw [hf2, hf, List.filter_cons]
        by_cases hc : classify f.name = FileClass.recognized
        · by_cases hex : extractTags f = none
          · simp [hc, hex, List.append_assoc]
          · simp [hc, hex]
        · simp [hc]

/-- Witness for C8: a three-file run — a recognized file that fails, an
ignored file, a recognized file that succeeds.  The walk continues past the
failure: both recognized files are attempted, and only the failing one is
recorded. -/
theorem walker_never_aborts_witness :
    (⟨⟨[(["A", "B", "T.mp3"], 3)], [["A", "B"], ["A"]]⟩, [["s", "bad.mp3"]], [],
        [["s", "bad.mp3"], ["s", "good.mp3"]]⟩ : WalkState).attempted
      = ([] : List (List String))
        ++ (([⟨["s"], "bad.mp3", 1, none, none⟩,
              ⟨["s"], "skip.txt", 2, none, none⟩,
              ⟨["s"], "good.mp3", 3, none, some ⟨some "A", some "B", some "T"⟩⟩]
            : List SrcFile).filter
            (fun f => decide (classify f.name = FileClass.recognized))).map SrcFile.path
    ∧ (⟨⟨[(["A", "B", "T.mp3"], 3)], [["A", "B"], ["A"]]⟩, [["s", "bad.mp3"]], [],
        [["s", "bad.mp3"], ["s", "good.mp3"]]⟩ : WalkState).move_failures
      = ([] : List (List String))
        ++ (([⟨["s"], "bad.mp3", 1, none, none⟩,
              ⟨["s"], "skip.txt", 2, none, none⟩,
              ⟨["s"], "good.mp3", 3, none, some ⟨some "A", some "B", some "T"⟩⟩]
            : List SrcFile).filter
            (fun f => decide (classify f.name = FileClass.recognized)
              && (extractTags f).isNone)).map SrcFile.path :=
  walker_never_aborts
    [⟨["s"], "bad.mp3", 1, none, none⟩,
     ⟨["s"], "skip.txt", 2, none, none⟩,
     ⟨["s"], "good.mp3", 3, none, some ⟨some "A", some "B", some "T"⟩⟩]
    ⟨⟨[], []⟩, [], [], []⟩
    ⟨⟨[(["A", "B", "T.mp3"], 3)], [["A", "B"], ["A"]]⟩, [["s", "bad.mp3"]], [],
      [["s", "bad.mp3"], ["s", "good.mp3"]]⟩
    (by rfl)
